import Mathlib

/-!
Verification development for the conway-s-game-of-life-Cpp repository.

The repository ships three source artefacts: grid.h (the Grid class
declaration with the Cell enum), world.h (the World class declaration) and
zoo.cpp (pattern constructors plus the ascii and binary codecs).  The
implementation files grid.cpp and world.cpp are not part of the sources, so
the bodies of the Grid and World member functions are modelled from the
specification where a claim needs them; zoo.cpp is translated directly.

Machine integers are modelled as Nat or Int with explicit bounds where the
32-bit width matters (file headers).  File IO is modelled as pure functions
over byte lists (binary codec) and character lists (ascii codec); a C++
throw becomes an Except.error carrying the thrown message.
-/

/-- Model of grid.h: enum Cell : char with DEAD the space character and
ALIVE the hash character.  The enum is char backed, so a Cell is a Char. -/
abbrev Cell := Char

namespace Cell

/-- Cell::DEAD from grid.h. -/
def DEAD : Cell := ' '

/-- Cell::ALIVE from grid.h. -/
def ALIVE : Cell := '#'

end Cell

/-- Model of the Grid class data from grid.h: a flat row-major vector of
cells (theGrid) plus the two dimensions.  Dimensions are C++ ints that are
never negative for a constructed grid, so they are carried as Nat. -/
structure Grid where
  num_columns : Nat
  num_rows : Nat
  theGrid : List Cell
deriving DecidableEq

/-- Row-major flat access: cell at flat index i.  The C++ vector access is
always in bounds for the translated operations; getD keeps the function
total, defaulting to DEAD. -/
def Grid.cellAt (g : Grid) (i : Nat) : Cell := g.theGrid.getD i Cell.DEAD

/-- Grid::get for in-range coordinates: get_index computes y * width + x. -/
def Grid.get (g : Grid) (x y : Nat) : Cell := g.cellAt (y * g.num_columns + x)

/-- Grid::set for in-range coordinates. -/
def Grid.set (g : Grid) (x y : Nat) (c : Cell) : Grid :=
  { g with theGrid := g.theGrid.set (y * g.num_columns + x) c }

/-- Modelled from the spec: the Grid width by height constructor from the
missing grid.cpp initialises every cell to DEAD. -/
def Grid.make (w h : Nat) : Grid := ⟨w, h, List.replicate (w * h) Cell.DEAD⟩

/-- Structural invariant of a constructed Grid (spec section 3): the cell
vector holds exactly width times height cells. -/
def Grid.wf (g : Grid) : Prop := g.theGrid.length = g.num_columns * g.num_rows

instance (g : Grid) : Decidable g.wf := by
  unfold Grid.wf
  infer_instance

/-- A grid whose cells all hold one of the two legal Cell values (spec
section 3: the two recognized values are the only legal states). -/
def Grid.legalCells (g : Grid) : Prop :=
  ∀ c ∈ g.theGrid, c = Cell.ALIVE ∨ c = Cell.DEAD

instance (g : Grid) : Decidable g.legalCells := by
  unfold Grid.legalCells
  infer_instance

/-- Modelled from the spec: Grid::get_alive_cells from the missing grid.cpp
counts the cells equal to ALIVE. -/
def Grid.get_alive_cells (g : Grid) : Nat :=
  g.theGrid.countP (fun c => c == Cell.ALIVE)

/-- Error message modelling the invalid dimension error of the spec
(section 7) for the constructors in the missing grid.cpp. -/
def invalidDimMsg : String := "Grid width and height must not be negative."

/-- Modelled from the spec: constructing a Grid from C++ int dimensions, as
done by the missing grid.cpp constructor, is an error for negative
dimensions (spec sections 4.1 and 7); otherwise all cells start DEAD. -/
def Grid.create (w h : Int) : Except String Grid :=
  if w < 0 ∨ h < 0 then Except.error invalidDimMsg
  else Except.ok (Grid.make w.toNat h.toNat)

/-- Model of the World class data from world.h: two grids, current and
future. -/
structure World where
  current : Grid
  future : Grid
deriving DecidableEq

/-- The eight Moore-neighbourhood offsets. -/
def neighbourOffsets : List (Int × Int) :=
  [(-1, -1), (0, -1), (1, -1), (-1, 0), (1, 0), (-1, 1), (0, 1), (1, 1)]

/-- Modelled from the spec: one neighbour lookup of World::count_neighbours
from the missing world.cpp.  Non-toroidal: positions outside the grid are
DEAD.  Toroidal: each out-of-range coordinate wraps modulo width or height
(Int.emod, so that coordinate -1 maps to width - 1). -/
def Grid.aliveAt (g : Grid) (x y : Int) (toroidal : Bool) : Bool :=
  if toroidal then
    decide (g.get (x.emod g.num_columns).toNat (y.emod g.num_rows).toNat = Cell.ALIVE)
  else if 0 ≤ x ∧ x < (g.num_columns : Int) ∧ 0 ≤ y ∧ y < (g.num_rows : Int) then
    decide (g.get x.toNat y.toNat = Cell.ALIVE)
  else false

/-- Modelled from the spec: World::count_neighbours from the missing
world.cpp counts ALIVE cells among the eight Moore neighbours of (x, y). -/
def count_neighbours (g : Grid) (x y : Int) (toroidal : Bool) : Nat :=
  (neighbourOffsets.filter (fun d => g.aliveAt (x + d.1) (y + d.2) toroidal)).length

/-- Modelled from the spec: the birth and survival rule applied to one cell,
all counts taken against the pre-step generation g. -/
def stepCell (g : Grid) (toroidal : Bool) (x y : Nat) : Cell :=
  let n := count_neighbours g (x : Int) (y : Int) toroidal
  if g.get x y = Cell.ALIVE then
    (if n = 2 ∨ n = 3 then Cell.ALIVE else Cell.DEAD)
  else (if n = 3 then Cell.ALIVE else Cell.DEAD)

/-- A grid of dimensions w times h whose cell at (x, y) is f x y, laid out
row-major. -/
def Grid.ofFn (w h : Nat) (f : Nat → Nat → Cell) : Grid :=
  ⟨w, h, (List.range (w * h)).map (fun i => f (i % w) (i / w))⟩

/-- Modelled from the spec: World::step from the missing world.cpp writes
the new generation of every cell into future, reading only current, then
exchanges current and future with std::swap (world.h documents the swap). -/
def World.step (wo : World) (toroidal : Bool) : World :=
  ⟨Grid.ofFn wo.current.num_columns wo.current.num_rows (stepCell wo.current toroidal),
    wo.current⟩

/-- Modelled from the spec: the World constructor taking an initial Grid
allocates future with matching dimensions, initialised DEAD. -/
def World.fromGrid (g : Grid) : World := ⟨g, Grid.make g.num_columns g.num_rows⟩

namespace Zoo

/-- Zoo::glider from zoo.cpp: a 3 by 3 grid with five ALIVE cells. -/
def glider : Grid :=
  (((((Grid.make 3 3).set 0 2 Cell.ALIVE).set 1 2 Cell.ALIVE).set 2 2
      Cell.ALIVE).set 2 1 Cell.ALIVE).set 1 0 Cell.ALIVE

end Zoo

/-- Little-endian 4-byte rendering of a C++ int written by ofstream write,
two. complement modulo 2 to the 32. -/
def int32LE (n : Int) : List Nat :=
  let u := (n % 4294967296).toNat
  [u % 256, u / 256 % 256, u / 65536 % 256, u / 16777216 % 256]

/-- Reading a C++ int back from four little-endian bytes, reversing the
two. complement encoding. -/
def int32FromLE (b0 b1 b2 b3 : Nat) : Int :=
  let u := b0 + 256 * b1 + 65536 * b2 + 16777216 * b3
  if u < 2147483648 then (u : Int) else (u : Int) - 4294967296

/-- Message thrown by zoo.cpp when a stream ends before the expected data. -/
def eofMsg : String := "File ended unexpectedly."

namespace Zoo

/-- Body byte k of Zoo::save_binary from zoo.cpp.  The inner loop runs bit
positions i = 0..7 while cells remain (the guard column and row checks say
exactly that the flat cell index 8k + i is below width times height, since
column and row advance row-major one cell per bit) and ORs bit i in when
the cell is ALIVE, starting from the current content of the byte buffer
(the seed): the DEAD branch ORs in a zero bit, which clears nothing. -/
def encodeByte (g : Grid) (total seed k : Nat) : Nat :=
  (List.range 8).foldl
    (fun b i =>
      if 8 * k + i < total ∧ g.cellAt (8 * k + i) = Cell.ALIVE then b ||| (1 <<< i) else b)
    seed

/-- Zoo::save_binary from zoo.cpp as a pure function to a byte list: the
4-byte width, the 4-byte height, then width * height / 8 + 1 body bytes
(C++ integer division: the loop bound is realWidth * realHeight / 8 + 1).
The char buffer the bytes are assembled in is declared without an
initialiser and is reset to zero only after each byte is written, so the
first body byte ORs the cell bits onto indeterminate memory while every
later byte starts from zero; the parameter b0 is that indeterminate
initial byte, making each possible execution of the undefined-behaviour
read one instance of the model. -/
def save_binary (b0 : Nat) (g : Grid) : List Nat :=
  int32LE (g.num_columns : Int) ++ int32LE (g.num_rows : Int) ++
    (List.range (g.num_columns * g.num_rows / 8 + 1)).map
      (fun k => encodeByte g (g.num_columns * g.num_rows) (if k = 0 then b0 else 0) k)

/-- The cell-filling loop of Zoo::load_binary from zoo.cpp: cell flat index
idx is read from bit idx mod 8 of body byte idx div 8 (the byte loop k and
bit loop i with row-major column and row stepping give idx = 8k + i), and
only ALIVE is ever written, the constructor having initialised DEAD.  The
loop while idx < total is phrased structurally with the count of remaining
cells as first argument. -/
def decodeCells (w : Nat) (body : List Nat) : Nat → Nat → Grid → Grid
  | 0, _, g => g
  | rem + 1, idx, g =>
    let b := body.getD (idx / 8) 0
    let g' := if b.testBit (idx % 8) then g.set (idx % w) (idx / w) Cell.ALIVE else g
    decodeCells w body rem (idx + 1) g'

/-- Zoo::load_binary from zoo.cpp as a pure function over the byte list of
the file.  It reads the two 4-byte header ints, constructs the Grid (the
constructor in the missing grid.cpp errors on negative dimensions, modelled
by Grid.create), then reads width * height / 8 + 1 body bytes; if the
stream runs out the final good() check finds eofbit set and the function
throws the unexpected-end message. -/
def load_binary (bytes : List Nat) : Except String Grid :=
  match bytes with
  | b0 :: b1 :: b2 :: b3 :: b4 :: b5 :: b6 :: b7 :: rest =>
    match Grid.create (int32FromLE b0 b1 b2 b3) (int32FromLE b4 b5 b6 b7) with
    | Except.error e => Except.error e
    | Except.ok g0 =>
      let total := (int32FromLE b0 b1 b2 b3).toNat * (int32FromLE b4 b5 b6 b7).toNat
      if rest.length < total / 8 + 1 then Except.error eofMsg
      else Except.ok (decodeCells (int32FromLE b0 b1 b2 b3).toNat rest total 0 g0)
  | _ => Except.error eofMsg

end Zoo

deriving instance DecidableEq for Except

/-- Digits of n printed most significant first; fuel-structural model of
the decimal digits emitted by the iostream rendering of a nonnegative int
(fuel at least n makes the recursion on n / 10 structural). -/
def natCharsAux : Nat → Nat → List Char
  | 0, _ => []
  | fuel + 1, n =>
    if n = 0 then [] else natCharsAux fuel (n / 10) ++ [Char.ofNat (48 + n % 10)]

/-- Model of the iostream decimal rendering of a nonnegative int, as
written by outFile when save_ascii prints the dimensions. -/
def natChars (n : Nat) : List Char :=
  if n = 0 then ['0'] else natCharsAux n n

/-- Numeric value of a decimal digit character. -/
def digVal (c : Char) : Nat := c.toNat - 48

/-- The whitespace characters skipped by formatted int extraction. -/
def isWS (c : Char) : Bool :=
  decide (c = ' ' ∨ c = '\n' ∨ c = '\t' ∨ c = '\r')

/-- Accumulating digit scan of formatted int extraction: consume decimal
digits, stop at the first non-digit. -/
def parseDigitsAux : List Char → Nat → Nat × List Char
  | [], acc => (acc, [])
  | c :: cs, acc =>
    if c.isDigit then parseDigitsAux cs (10 * acc + digVal c) else (acc, c :: cs)

/-- Sign and digit handling of formatted int extraction, applied after the
whitespace skip. -/
def readIntCore : List Char → Option (Int × List Char)
  | [] => none
  | c :: cs =>
    if c = '-' then
      match cs with
      | [] => none
      | d :: ds =>
        if d.isDigit then
          some (-((parseDigitsAux ds (digVal d)).1 : Int), (parseDigitsAux ds (digVal d)).2)
        else none
    else if c = '+' then
      match cs with
      | [] => none
      | d :: ds =>
        if d.isDigit then
          some (((parseDigitsAux ds (digVal d)).1 : Int), (parseDigitsAux ds (digVal d)).2)
        else none
    else if c.isDigit then
      some (((parseDigitsAux cs (digVal c)).1 : Int), (parseDigitsAux cs (digVal c)).2)
    else none

/-- Model of istream formatted extraction of an int, as in the header read
of Zoo::load_ascii: skip whitespace, optional sign, then at least one
decimal digit; none models the failed state of the stream when no number
starts at the first non-whitespace character. -/
def readIntFrom (s : List Char) : Option (Int × List Char) :=
  readIntCore (s.dropWhile isWS)

/-- State of the ascii parse of Zoo::load_ascii: the remaining stream, the
character register x that inFile.get(x) writes into, the failed flag of
the stream, and the grid filled so far. -/
structure PState where
  s : List Char
  x : Char
  fl : Bool
  g : Grid
deriving DecidableEq

/-- Model of inFile.get(x): reads one character into the register; at end
of stream the register keeps its value and the stream enters the failed
state, and every further get on a failed stream leaves everything as is. -/
def pget (st : PState) : PState :=
  if st.fl then st
  else
    match st.s with
    | [] => { st with fl := true }
    | c :: cs => { st with s := cs, x := c }

/-- Message thrown by Zoo::load_ascii on a negative parsed dimension. -/
def dimMsg : String := "The parsed width or height is not a positive integer."

/-- Message thrown by Zoo::load_ascii on a cell character that is neither
DEAD nor ALIVE. -/
def badCellMsg : String := "The character for a cell is not the ALIVE or DEAD character."

/-- Message thrown by Zoo::load_ascii on a missing row terminator. -/
def newlineMsg : String := "Newline characters are not found when expected during parsing."

/-- Message thrown by zoo.cpp when the stream is bad without eofbit. -/
def genericErrMsg : String := "An error occured."

/-- The inner cell loop of Zoo::load_ascii for row i: one get per cell, a
throw when the character is neither the DEAD nor the ALIVE character, and
otherwise the accepted character is stored cast to Cell (the cast is the
identity, the Cell enum being char backed).  The first argument counts the
remaining cells of the row, j is the column of the next cell. -/
def readCells (i : Nat) : Nat → Nat → PState → Except String PState
  | 0, _, st => Except.ok st
  | rem + 1, j, st =>
    let st1 := pget st
    if st1.x = ' ' ∨ st1.x = '#' then
      readCells i rem (j + 1) { st1 with g := st1.g.set j i st1.x }
    else Except.error badCellMsg

/-- The row loop of Zoo::load_ascii: for each row its w cells, then one get
that must produce the newline terminator.  The first argument counts the
remaining rows, i is the index of the next row. -/
def readRows (w : Nat) : Nat → Nat → PState → Except String PState
  | 0, _, st => Except.ok st
  | rem + 1, i, st =>
    match readCells i w 0 st with
    | Except.error e => Except.error e
    | Except.ok st1 =>
      let st2 := pget st1
      if st2.x = '\n' then readRows w rem (i + 1) st2
      else Except.error newlineMsg

namespace Zoo

/-- Zoo::load_ascii from zoo.cpp as a pure function over the character list
of the file: extract width and height, reject negative dimensions, consume
one unchecked character (the header newline), construct the grid (all
DEAD), run the row loop, and finally report an unexpected end when the
stream failed.  The C++ register x is uninitialised before the first get;
the model starts it at the DEAD character, which no claimed behaviour
depends on. -/
def load_ascii (file : List Char) : Except String Grid :=
  match readIntFrom file with
  | none => Except.error genericErrMsg
  | some (w, s1) =>
    match readIntFrom s1 with
    | none => Except.error genericErrMsg
    | some (h, s2) =>
      if w < 0 ∨ h < 0 then Except.error dimMsg
      else
        let st0 := pget { s := s2, x := ' ', fl := false, g := Grid.make w.toNat h.toNat }
        match readRows w.toNat h.toNat 0 st0 with
        | Except.error e => Except.error e
        | Except.ok st1 => if st1.fl then Except.error eofMsg else Except.ok st1.g

/-- Zoo::save_ascii from zoo.cpp as a pure function to the character list
of the file: width, one space, height, one newline, then each row as its
cell characters (each cell written as its own char value) followed by a
newline. -/
def save_ascii (g : Grid) : List Char :=
  natChars g.num_columns ++ ' ' :: (natChars g.num_rows ++ '\n' ::
    List.flatten ((List.range g.num_rows).map
      (fun i => (List.range g.num_columns).map (fun j => g.get j i) ++ ['\n'])))

end Zoo

/-- Modelled from the spec: Grid::merge from the missing grid.cpp overlays
the cells of other onto this grid with the origin of other placed at
(x0, y0); portions landing outside the grid are clipped, and with
alive_only true only ALIVE cells of other overwrite the destination. -/
def Grid.merge (g other : Grid) (x0 y0 : Int) (alive_only : Bool) : Grid :=
  Grid.ofFn g.num_columns g.num_rows (fun x y =>
    let sx : Int := (x : Int) - x0
    let sy : Int := (y : Int) - y0
    if 0 ≤ sx ∧ sx < (other.num_columns : Int) ∧ 0 ≤ sy ∧ sy < (other.num_rows : Int) then
      let c := other.get sx.toNat sy.toNat
      if alive_only ∧ c ≠ Cell.ALIVE then g.get x y else c
    else g.get x y)

/-- The call grid.merge(pattern, x0, y0, alive_only) as observed by a
caller holding the pair (grid, pattern): grid.h declares the other
parameter by value, so the callee works on a copy and the caller keeps the
original pattern; the pair after the call is the merged grid beside the
untouched pattern. -/
def mergeCall (g p : Grid) (x0 y0 : Int) (alive_only : Bool) : Grid × Grid :=
  (g.merge p x0 y0 alive_only, p)

/-- The net grid effect of one row of the load_ascii cell loop: the cells
of the list are stored left to right into row i starting at column j. -/
def setCellsFrom (i : Nat) : Nat → List Char → Grid → Grid
  | _, [], G => G
  | j, c :: cs, G => setCellsFrom i (j + 1) cs (G.set j i c)

/-- The net grid effect of the load_ascii row loop: each row list is stored
into its row, starting at row i. -/
def setRowsFrom : Nat → List (List Char) → Grid → Grid
  | _, [], G => G
  | i, r :: rs, G => setRowsFrom (i + 1) rs (setCellsFrom i 0 r G)

/-- The row contents of a grid, as the character lists save_ascii writes
(without the newline terminators). -/
def rowsOf (g : Grid) : List (List Char) :=
  (List.range g.num_rows).map (fun i => (List.range g.num_columns).map (fun j => g.get j i))

theorem Grid.length_set (g : Grid) (x y : Nat) (c : Cell) :
    (g.set x y c).theGrid.length = g.theGrid.length := by
  simp [Grid.set]

theorem Grid.num_columns_set (g : Grid) (x y : Nat) (c : Cell) :
    (g.set x y c).num_columns = g.num_columns := rfl

theorem Grid.num_rows_set (g : Grid) (x y : Nat) (c : Cell) :
    (g.set x y c).num_rows = g.num_rows := rfl

theorem Grid.cellAt_set (g : Grid) (x y : Nat) (c : Cell) (p : Nat) :
    (g.set x y c).cellAt p =
      if y * g.num_columns + x = p ∧ p < g.theGrid.length then c else g.cellAt p := by
  unfold Grid.set Grid.cellAt
  simp only [List.getD_eq_getElem?_getD, List.getElem?_set]
  by_cases h1 : y * g.num_columns + x = p
  · subst h1
    by_cases h2 : y * g.num_columns + x < g.theGrid.length
    · simp [h2]
    · simp [h2, List.getElem?_eq_none (Nat.le_of_not_lt h2)]
  · simp [h1]

theorem Grid.cellAt_make (w h p : Nat) : (Grid.make w h).cellAt p = Cell.DEAD := by
  unfold Grid.make Grid.cellAt
  simp only [List.getD_eq_getElem?_getD, List.getElem?_replicate]
  by_cases hp : p < w * h <;> simp [hp]

theorem Grid.length_make (w h : Nat) : (Grid.make w h).theGrid.length = w * h := by
  simp [Grid.make]

theorem Grid.get_ofFn (w h : Nat) (f : Nat → Nat → Cell) (x y : Nat)
    (hx : x < w) (hy : y < h) : (Grid.ofFn w h f).get x y = f x y := by
  have hw : 0 < w := by omega
  have hidx : y * w + x < w * h := by
    calc y * w + x < y * w + w := by omega
    _ = (y + 1) * w := by ring
    _ ≤ h * w := Nat.mul_le_mul_right w (by omega)
    _ = w * h := Nat.mul_comm _ _
  show (Grid.ofFn w h f).cellAt (y * w + x) = f x y
  unfold Grid.ofFn Grid.cellAt
  simp only [List.getD_eq_getElem?_getD, List.getElem?_map]
  rw [List.getElem?_range hidx]
  simp only [Option.map_some', Option.getD_some]
  have hmod : (y * w + x) % w = x := by
    rw [Nat.add_comm, Nat.add_mul_mod_self_right, Nat.mod_eq_of_lt hx]
  have hdiv : (y * w + x) / w = y := by
    rw [Nat.add_comm, Nat.add_mul_div_right _ _ hw, Nat.div_eq_of_lt hx, Nat.zero_add]
  rw [hmod, hdiv]

theorem int32FromLE_int32LE (n : Int) (h1 : -2147483648 ≤ n) (h2 : n < 2147483648) :
    int32FromLE ((n % 4294967296).toNat % 256) ((n % 4294967296).toNat / 256 % 256)
      ((n % 4294967296).toNat / 65536 % 256) ((n % 4294967296).toNat / 16777216 % 256) = n := by
  simp only [int32FromLE]
  split <;> omega

theorem testBit_orFold (c : Nat → Prop) [DecidablePred c] (l : List Nat) (b0 : Nat) (j : Nat) :
    ((l.foldl (fun b i => if c i then b ||| (1 <<< i) else b) b0).testBit j = true) ↔
      (b0.testBit j = true ∨ (j ∈ l ∧ c j)) := by
  induction l generalizing b0 with
  | nil => simp
  | cons a l ih =>
    simp only [List.foldl_cons, ih, List.mem_cons]
    constructor
    · rintro (hb | hrest)
      · by_cases hc : c a
        · rw [if_pos hc, Nat.one_shiftLeft, Nat.testBit_or, Nat.testBit_two_pow] at hb
          rcases Bool.or_eq_true_iff.mp hb with hb' | hb'
          · exact Or.inl hb'
          · exact Or.inr ⟨Or.inl (of_decide_eq_true hb').symm, (of_decide_eq_true hb').symm ▸ hc⟩
        · rw [if_neg hc] at hb
          exact Or.inl hb
      · exact Or.inr ⟨Or.inr hrest.1, hrest.2⟩
    · rintro (hb | ⟨hj | hj, hc⟩)
      · left
        by_cases hc : c a
        · rw [if_pos hc, Nat.one_shiftLeft, Nat.testBit_or, hb]
          simp
        · rwa [if_neg hc]
      · left
        subst hj
        rw [if_pos hc, Nat.one_shiftLeft, Nat.testBit_or, Nat.testBit_two_pow]
        simp
      · exact Or.inr ⟨hj, hc⟩

theorem testBit_encodeByte (g : Grid) (total seed k j : Nat) :
    ((Zoo.encodeByte g total seed k).testBit j = true) ↔
      (seed.testBit j = true ∨
        (j < 8 ∧ 8 * k + j < total ∧ g.cellAt (8 * k + j) = Cell.ALIVE)) := by
  unfold Zoo.encodeByte
  rw [testBit_orFold (fun i => 8 * k + i < total ∧ g.cellAt (8 * k + i) = Cell.ALIVE)]
  simp [List.mem_range]

theorem testBit_encodeByte_zero (g : Grid) (total k j : Nat) :
    ((Zoo.encodeByte g total 0 k).testBit j = true) ↔
      (j < 8 ∧ 8 * k + j < total ∧ g.cellAt (8 * k + j) = Cell.ALIVE) := by
  rw [testBit_encodeByte]
  simp

theorem decodeCells_num_columns (w : Nat) (body : List Nat) :
    ∀ (rem idx : Nat) (g : Grid),
      (Zoo.decodeCells w body rem idx g).num_columns = g.num_columns := by
  intro rem
  induction rem with
  | zero => intro idx g; rfl
  | succ rem ih =>
    intro idx g
    show (Zoo.decodeCells w body rem (idx + 1) _).num_columns = g.num_columns
    rw [ih]
    split <;> rfl

theorem decodeCells_num_rows (w : Nat) (body : List Nat) :
    ∀ (rem idx : Nat) (g : Grid),
      (Zoo.decodeCells w body rem idx g).num_rows = g.num_rows := by
  intro rem
  induction rem with
  | zero => intro idx g; rfl
  | succ rem ih =>
    intro idx g
    show (Zoo.decodeCells w body rem (idx + 1) _).num_rows = g.num_rows
    rw [ih]
    split <;> rfl

theorem decodeCells_length (w : Nat) (body : List Nat) :
    ∀ (rem idx : Nat) (g : Grid),
      (Zoo.decodeCells w body rem idx g).theGrid.length = g.theGrid.length := by
  intro rem
  induction rem with
  | zero => intro idx g; rfl
  | succ rem ih =>
    intro idx g
    show (Zoo.decodeCells w body rem (idx + 1) _).theGrid.length = g.theGrid.length
    rw [ih]
    split
    · exact Grid.length_set ..
    · rfl

theorem decodeCells_cellAt (w : Nat) (body : List Nat) :
    ∀ (rem idx : Nat) (g : Grid) (p : Nat), g.num_columns = w →
      (Zoo.decodeCells w body rem idx g).cellAt p =
        if idx ≤ p ∧ p < idx + rem ∧ p < g.theGrid.length ∧
            (body.getD (p / 8) 0).testBit (p % 8) = true
        then Cell.ALIVE else g.cellAt p := by
  intro rem
  induction rem with
  | zero =>
    intro idx g p hc
    rw [if_neg (by omega)]
    rfl
  | succ rem ih =>
    intro idx g p hc
    have hflat : idx / w * w + idx % w = idx := by
      rw [Nat.mul_comm]
      exact Nat.div_add_mod idx w
    by_cases hbit : (body.getD (idx / 8) 0).testBit (idx % 8) = true
    · show (Zoo.decodeCells w body rem (idx + 1)
          (if (body.getD (idx / 8) 0).testBit (idx % 8) then
            g.set (idx % w) (idx / w) Cell.ALIVE else g)).cellAt p = _
      rw [if_pos hbit, ih (idx + 1) _ p ((Grid.num_columns_set ..).trans hc)]
      rw [Grid.length_set, Grid.cellAt_set, hc, hflat]
      by_cases hp : p = idx
      · have hA : ¬(idx + 1 ≤ p ∧ p < idx + 1 + rem ∧ p < g.theGrid.length ∧
            (body.getD (p / 8) 0).testBit (p % 8) = true) := by
          rintro ⟨ha, -, -, -⟩
          omega
        by_cases hlen : p < g.theGrid.length
        · rw [if_neg hA, if_pos ⟨hp.symm, hlen⟩,
            if_pos ⟨by omega, by omega, hlen, hp.symm ▸ hbit⟩]
        · rw [if_neg hA, if_neg (show ¬(idx = p ∧ p < g.theGrid.length) by
              rintro ⟨-, hcl⟩
              omega),
            if_neg (by
              rintro ⟨-, -, hcl, -⟩
              omega)]
      · rw [if_neg (show ¬(idx = p ∧ p < g.theGrid.length) by
            rintro ⟨he, -⟩
            omega)]
        by_cases htot : idx + 1 ≤ p ∧ p < idx + 1 + rem ∧ p < g.theGrid.length ∧
            (body.getD (p / 8) 0).testBit (p % 8) = true
        · rw [if_pos htot, if_pos ⟨by omega, by omega, htot.2.2⟩]
        · rw [if_neg htot, if_neg (by
            rintro ⟨ha, hb, hcl, hd⟩
            exact htot ⟨by omega, by omega, hcl, hd⟩)]
    · show (Zoo.decodeCells w body rem (idx + 1)
          (if (body.getD (idx / 8) 0).testBit (idx % 8) then
            g.set (idx % w) (idx / w) Cell.ALIVE else g)).cellAt p = _
      rw [if_neg hbit, ih (idx + 1) _ p hc]
      by_cases htot : idx + 1 ≤ p ∧ p < idx + 1 + rem ∧ p < g.theGrid.length ∧
          (body.getD (p / 8) 0).testBit (p % 8) = true
      · rw [if_pos htot, if_pos ⟨by omega, by omega, htot.2.2⟩]
      · rw [if_neg htot, if_neg (by
          rintro ⟨ha, hb, hcl, hd⟩
          by_cases hp : p = idx
          · subst hp
            exact hbit hd
          · exact htot ⟨by omega, by omega, hcl, hd⟩)]

theorem Grid.cellAt_of_ge (g : Grid) (p : Nat) (hp : g.theGrid.length ≤ p) :
    g.cellAt p = Cell.DEAD := by
  unfold Grid.cellAt
  rw [List.getD_eq_getElem?_getD, List.getElem?_eq_none hp]
  rfl

theorem Grid.cellAt_mem (g : Grid) (p : Nat) (hp : p < g.theGrid.length) :
    g.cellAt p ∈ g.theGrid := by
  unfold Grid.cellAt
  rw [List.getD_eq_getElem?_getD, List.getElem?_eq_getElem hp]
  exact List.getElem_mem hp

theorem Grid.eq_of_cellAt (g1 g2 : Grid) (hc : g1.num_columns = g2.num_columns)
    (hr : g1.num_rows = g2.num_rows) (hl : g1.theGrid.length = g2.theGrid.length)
    (hcell : ∀ p, g1.cellAt p = g2.cellAt p) : g1 = g2 := by
  obtain ⟨c1, r1, l1⟩ := g1
  obtain ⟨c2, r2, l2⟩ := g2
  simp only at hc hr hl
  subst hc hr
  have : l1 = l2 := by
    refine List.ext_getElem hl (fun i h1 h2 => ?_)
    have hi := hcell i
    unfold Grid.cellAt at hi
    simp only at hi
    rwa [List.getD_eq_getElem?_getD, List.getD_eq_getElem?_getD,
      List.getElem?_eq_getElem h1, List.getElem?_eq_getElem h2, Option.getD_some,
      Option.getD_some] at hi
  simp [this]

/-- Support for C2: when the indeterminate initial buffer byte happens to
be zero, save_binary followed by load_binary returns exactly the original
grid, for every well-formed legal grid with dimensions in the int range of
the header fields.  This is the only shape of the round trip the program
warrants: it is conditional on the uninitialised memory. -/
theorem binary_roundtrip_of_zero_buffer (g : Grid) (hwf : g.wf) (hleg : g.legalCells)
    (hw : g.num_columns < 2147483648) (hh : g.num_rows < 2147483648) :
    Zoo.load_binary (Zoo.save_binary 0 g) = Except.ok g := by
  have hdecw : int32FromLE (((g.num_columns : Int) % 4294967296).toNat % 256)
      (((g.num_columns : Int) % 4294967296).toNat / 256 % 256)
      (((g.num_columns : Int) % 4294967296).toNat / 65536 % 256)
      (((g.num_columns : Int) % 4294967296).toNat / 16777216 % 256) = (g.num_columns : Int) :=
    int32FromLE_int32LE _ (by omega) (by omega)
  have hdech : int32FromLE (((g.num_rows : Int) % 4294967296).toNat % 256)
      (((g.num_rows : Int) % 4294967296).toNat / 256 % 256)
      (((g.num_rows : Int) % 4294967296).toNat / 65536 % 256)
      (((g.num_rows : Int) % 4294967296).toNat / 16777216 % 256) = (g.num_rows : Int) :=
    int32FromLE_int32LE _ (by omega) (by omega)
  simp only [Zoo.save_binary, int32LE, ite_self, List.cons_append, List.nil_append]
  simp only [Zoo.load_binary, hdecw, hdech, Grid.create]
  rw [if_neg (by omega)]
  simp only [Int.toNat_natCast, List.length_map, List.length_range]
  rw [if_neg (by omega)]
  congr 1
  have hlen : g.theGrid.length = g.num_columns * g.num_rows := hwf
  have hmake : (Grid.make g.num_columns g.num_rows).num_columns = g.num_columns := rfl
  refine Grid.eq_of_cellAt _ _ ?_ ?_ ?_ ?_
  · rw [decodeCells_num_columns]
    rfl
  · rw [decodeCells_num_rows]
    rfl
  · rw [decodeCells_length, Grid.length_make, hwf]
  · intro p
    rw [decodeCells_cellAt _ _ _ _ _ _ hmake, Grid.length_make]
    by_cases hp : p < g.num_columns * g.num_rows
    · have hbyte : ((List.range (g.num_columns * g.num_rows / 8 + 1)).map
          (fun k => Zoo.encodeByte g (g.num_columns * g.num_rows) 0 k)).getD (p / 8) 0 =
          Zoo.encodeByte g (g.num_columns * g.num_rows) 0 (p / 8) := by
        have hk : p / 8 < g.num_columns * g.num_rows / 8 + 1 := by
          have := Nat.div_le_div_right (c := 8) (Nat.le_of_lt hp)
          omega
        rw [List.getD_eq_getElem?_getD, List.getElem?_map, List.getElem?_range hk]
        rfl
      have hsplit : 8 * (p / 8) + p % 8 = p := Nat.div_add_mod p 8
      by_cases halive : g.cellAt p = Cell.ALIVE
      · rw [if_pos ⟨Nat.zero_le _, by omega, by omega, by
          rw [hbyte]
          exact (testBit_encodeByte_zero g (g.num_columns * g.num_rows) (p / 8) (p % 8)).mpr
            ⟨by omega, by omega, by rwa [hsplit]⟩⟩]
        rw [halive]
      · rw [if_neg (by
          rintro ⟨-, -, -, hbit⟩
          rw [hbyte] at hbit
          obtain ⟨-, -, hal⟩ :=
            (testBit_encodeByte_zero g (g.num_columns * g.num_rows) (p / 8) (p % 8)).mp hbit
          rw [hsplit] at hal
          exact halive hal), Grid.cellAt_make]
        rcases hleg (g.cellAt p) (g.cellAt_mem p (by omega)) with hA | hD
        · exact absurd hA halive
        · exact hD.symm
    · rw [if_neg (by omega), Grid.cellAt_make,
        (g.cellAt_of_ge p (by omega)).symm]

/-- C2: the code evaluated at the failing input.  zoo.cpp declares char
buffer[1] without an initialiser and zeroes it only after each byte is
written, and the bit loop only ORs bits in, so the first body byte is the
first eight cell bits ORed onto indeterminate memory.  With indeterminate
byte 1, the DEAD corner cell (0, 0) of the glider is saved as a 1 bit and
loads back ALIVE, so the round trip does not reproduce every cell; the
same grid round trips exactly when the indeterminate byte happens to be
zero, which the program does not guarantee. -/
theorem C2_uninitialized_buffer :
    Zoo.save_binary 1 Zoo.glider = [3, 0, 0, 0, 3, 0, 0, 0, 227, 1] ∧
      Zoo.load_binary (Zoo.save_binary 1 Zoo.glider) =
        Except.ok (Zoo.glider.set 0 0 Cell.ALIVE) ∧
      Zoo.glider.set 0 0 Cell.ALIVE ≠ Zoo.glider ∧
      Zoo.glider.get 0 0 = Cell.DEAD ∧
      Zoo.load_binary (Zoo.save_binary 0 Zoo.glider) = Except.ok Zoo.glider := by
  refine ⟨by decide, by decide, by decide, by decide, by decide⟩

/-- C3 counterexample: a grid with width * height = 0 is saved with one
body byte after the 8 header bytes — the claim calls for ceil(0 / 8) = 0
body bytes, so the file should be 8 bytes, and the claim calls for the
body to be zero-padded — yet under the indeterminate initial buffer byte 1
the one body byte the code emits is 1, and even with the byte zero the
file is 9 bytes long. -/
theorem C3_counterexample :
    Zoo.save_binary 1 (Grid.make 0 0) = [0, 0, 0, 0, 0, 0, 0, 0, 1] ∧
      (Zoo.save_binary 0 (Grid.make 0 0)).length = 9 := by
  constructor <;> decide

/-- C3 (amended): save_binary writes the 4-byte little-endian width, the
4-byte little-endian height, and then exactly width * height / 8 + 1 body
bytes (C++ integer division, so a grid with zero cells gets 1 body byte
and a multiple-of-8 cell count gets one byte more than ceil).  Every body
byte after the first holds the packed cell bits, row-major and
least-significant-bit first with bit 1 for ALIVE and every bit past the
last cell zero; the first body byte holds the first eight cell bits ORed
onto the indeterminate initial value of the uninitialised buffer, so its
padding carries no zero guarantee (it is the packed bits exactly when that
indeterminate byte is zero). -/
theorem C3_save_binary_format (g : Grid) (b0 : Nat) :
    (Zoo.save_binary b0 g).length = 8 + (g.num_columns * g.num_rows / 8 + 1) ∧
      (Zoo.save_binary b0 g).take 4 = int32LE (g.num_columns : Int) ∧
      ((Zoo.save_binary b0 g).drop 4).take 4 = int32LE (g.num_rows : Int) ∧
      (∀ k j : Nat, 1 ≤ k → k < g.num_columns * g.num_rows / 8 + 1 →
        ((((Zoo.save_binary b0 g).drop 8).getD k 0).testBit j = true ↔
          (j < 8 ∧ 8 * k + j < g.num_columns * g.num_rows ∧
            g.cellAt (8 * k + j) = Cell.ALIVE))) ∧
      (∀ j : Nat, ((((Zoo.save_binary b0 g).drop 8).getD 0 0).testBit j = true ↔
        (b0.testBit j = true ∨ (j < 8 ∧ j < g.num_columns * g.num_rows ∧
          g.cellAt j = Cell.ALIVE)))) := by
  have hdrop : (Zoo.save_binary b0 g).drop 8 =
      (List.range (g.num_columns * g.num_rows / 8 + 1)).map
        (fun k => Zoo.encodeByte g (g.num_columns * g.num_rows)
          (if k = 0 then b0 else 0) k) := by
    simp only [Zoo.save_binary, int32LE, List.cons_append, List.nil_append]
    rfl
  refine ⟨?_, ?_, ?_, ?_, ?_⟩
  · simp [Zoo.save_binary, int32LE]
    omega
  · simp only [Zoo.save_binary, int32LE, List.cons_append, List.nil_append]
    rfl
  · simp only [Zoo.save_binary, int32LE, List.cons_append, List.nil_append]
    rfl
  · intro k j hk1 hk
    rw [hdrop, List.getD_eq_getElem?_getD, List.getElem?_map, List.getElem?_range hk]
    show (Zoo.encodeByte g (g.num_columns * g.num_rows) (if k = 0 then b0 else 0) k).testBit j
        = true ↔ _
    rw [if_neg (by omega)]
    exact testBit_encodeByte_zero g (g.num_columns * g.num_rows) k j
  · intro j
    rw [hdrop, List.getD_eq_getElem?_getD, List.getElem?_map,
      List.getElem?_range (by omega : 0 < g.num_columns * g.num_rows / 8 + 1)]
    show (Zoo.encodeByte g (g.num_columns * g.num_rows) (if 0 = 0 then b0 else 0) 0).testBit j
        = true ↔ _
    rw [if_pos rfl]
    have h := testBit_encodeByte g (g.num_columns * g.num_rows) b0 0 j
    simpa using h

/-- C3 witness: the format theorem applied at the glider grid with the
indeterminate initial byte 5. -/
theorem C3_save_binary_format_witness :
    (Zoo.save_binary 5 Zoo.glider).length =
        8 + (Zoo.glider.num_columns * Zoo.glider.num_rows / 8 + 1) ∧
      ((((Zoo.save_binary 5 Zoo.glider).drop 8).getD 1 0).testBit 0 = true ↔
        (0 < 8 ∧ 8 * 1 + 0 < Zoo.glider.num_columns * Zoo.glider.num_rows ∧
          Zoo.glider.cellAt (8 * 1 + 0) = Cell.ALIVE)) ∧
      ((((Zoo.save_binary 5 Zoo.glider).drop 8).getD 0 0).testBit 0 = true ↔
        ((5 : Nat).testBit 0 = true ∨ (0 < 8 ∧ 0 < Zoo.glider.num_columns * Zoo.glider.num_rows ∧
          Zoo.glider.cellAt 0 = Cell.ALIVE))) :=
  ⟨(C3_save_binary_format Zoo.glider 5).1,
    (C3_save_binary_format Zoo.glider 5).2.2.2.1 1 0 (by decide) (by decide),
    (C3_save_binary_format Zoo.glider 5).2.2.2.2 0⟩

/-- C4: a binary file whose 8-byte header declares dimensions w and h but
whose body holds fewer than ceil(w * h / 8) bytes makes load_binary fail
with the unexpected-end error; no grid is returned. -/
theorem C4_truncated_binary (w h : Nat) (hw : w < 2147483648) (hh : h < 2147483648)
    (body : List Nat) (hshort : body.length < (w * h + 7) / 8) :
    Zoo.load_binary (int32LE (w : Int) ++ int32LE (h : Int) ++ body) =
      Except.error eofMsg := by
  have hdecw := int32FromLE_int32LE (w : Int) (by omega) (by omega)
  have hdech := int32FromLE_int32LE (h : Int) (by omega) (by omega)
  simp only [int32LE, List.cons_append, List.nil_append]
  simp only [Zoo.load_binary, hdecw, hdech, Grid.create]
  rw [if_neg (by omega)]
  simp only [Int.toNat_natCast]
  rw [if_pos (by omega)]

/-- C4 witness: a 3 by 3 header with a single body byte. -/
theorem C4_truncated_binary_witness :
    Zoo.load_binary (int32LE (3 : Int) ++ int32LE (3 : Int) ++ [226]) =
      Except.error eofMsg :=
  C4_truncated_binary 3 3 (by decide) (by decide) [226] (by decide)

/-- C7: a header parsing to a negative width or height makes load_ascii
fail with its negative-dimension message, and makes load_binary fail with
the invalid-dimension error of the Grid constructor; neither returns a
grid built from the negative dimensions. -/
theorem C7_negative_dimensions :
    (∀ (file r1 r2 : List Char) (w h : Int),
        readIntFrom file = some (w, r1) → readIntFrom r1 = some (h, r2) →
        (w < 0 ∨ h < 0) → Zoo.load_ascii file = Except.error dimMsg) ∧
    (∀ (w h : Int) (body : List Nat), -2147483648 ≤ w → w < 2147483648 →
        -2147483648 ≤ h → h < 2147483648 → (w < 0 ∨ h < 0) →
        Zoo.load_binary (int32LE w ++ int32LE h ++ body) =
          Except.error invalidDimMsg) := by
  constructor
  · intro file r1 r2 w h h1 h2 hneg
    simp only [Zoo.load_ascii, h1, h2]
    rw [if_pos hneg]
  · intro w h body hw1 hw2 hh1 hh2 hneg
    have hdecw := int32FromLE_int32LE w hw1 hw2
    have hdech := int32FromLE_int32LE h hh1 hh2
    simp only [int32LE, List.cons_append, List.nil_append]
    simp only [Zoo.load_binary, hdecw, hdech, Grid.create]
    rw [if_pos hneg]

/-- C7 witness: the ascii header -3 3 and the binary header -3, 3. -/
theorem C7_negative_dimensions_witness :
    Zoo.load_ascii "-3 3\n".toList = Except.error dimMsg ∧
      Zoo.load_binary (int32LE (-3) ++ int32LE 3 ++ [0]) =
        Except.error invalidDimMsg :=
  ⟨C7_negative_dimensions.1 "-3 3\n".toList [' ', '3', '\n'] ['\n'] (-3) 3
      (by decide) (by decide) (by decide),
    C7_negative_dimensions.2 (-3) 3 [0] (by decide) (by decide) (by decide)
      (by decide) (by decide)⟩

/-- C1: step computes, for every cell of current, the birth/survival rule
with neighbour counts taken against the pre-step generation (out-of-range
neighbours DEAD when not toroidal, coordinates wrapped modulo the
dimensions when toroidal), writes the results as the new current, makes
future the old generation buffer (the swap), and is deterministic in
(current, toroidal). -/
theorem C1_step_rule (wo : World) (toroidal : Bool) :
    ((wo.step toroidal).future = wo.current) ∧
    ((wo.step toroidal).current.num_columns = wo.current.num_columns ∧
      (wo.step toroidal).current.num_rows = wo.current.num_rows) ∧
    (∀ x y : Nat, x < wo.current.num_columns → y < wo.current.num_rows →
      (wo.step toroidal).current.get x y =
        (if wo.current.get x y = Cell.ALIVE then
          (if count_neighbours wo.current (x : Int) (y : Int) toroidal = 2 ∨
              count_neighbours wo.current (x : Int) (y : Int) toroidal = 3
            then Cell.ALIVE else Cell.DEAD)
        else (if count_neighbours wo.current (x : Int) (y : Int) toroidal = 3
          then Cell.ALIVE else Cell.DEAD))) ∧
    (∀ wo2 : World, wo2.current = wo.current →
      (wo2.step toroidal).current = (wo.step toroidal).current) := by
  refine ⟨rfl, ⟨rfl, rfl⟩, ?_, ?_⟩
  · intro x y hx hy
    show (Grid.ofFn wo.current.num_columns wo.current.num_rows
        (stepCell wo.current toroidal)).get x y = _
    rw [Grid.get_ofFn _ _ _ _ _ hx hy]
    rfl
  · intro wo2 h2
    show Grid.ofFn wo2.current.num_columns wo2.current.num_rows
        (stepCell wo2.current toroidal) = _
    rw [h2]
    rfl

/-- C1 witness: the step rule read off at cell (0, 0) of the glider world
stepped toroidally. -/
theorem C1_step_rule_witness :
    (0 : Nat) < (World.fromGrid Zoo.glider).current.num_columns ∧
      (0 : Nat) < (World.fromGrid Zoo.glider).current.num_rows ∧
      (World.step (World.fromGrid Zoo.glider) true).current.get 0 0 =
        (if (World.fromGrid Zoo.glider).current.get 0 0 = Cell.ALIVE then
          (if count_neighbours (World.fromGrid Zoo.glider).current (0 : Int) (0 : Int) true = 2 ∨
              count_neighbours (World.fromGrid Zoo.glider).current (0 : Int) (0 : Int) true = 3
            then Cell.ALIVE else Cell.DEAD)
        else (if count_neighbours (World.fromGrid Zoo.glider).current (0 : Int) (0 : Int) true = 3
          then Cell.ALIVE else Cell.DEAD)) :=
  ⟨by decide, by decide,
    (C1_step_rule (World.fromGrid Zoo.glider) true).2.2.1 0 0 (by decide) (by decide)⟩

/-- C5 counterexample: one toroidal step of the glider world on its 3 by 3
bounding box yields the all-DEAD grid (on a 3 by 3 torus the eight Moore
neighbours of any cell are exactly the eight other cells, so each of the
five live cells counts four live neighbours and dies while every dead cell
counts five and stays dead); the result has 0 live cells, so it is not any
phase of the 5-cell glider. -/
theorem C5_counterexample :
    (World.step (World.fromGrid Zoo.glider) true).current = Grid.make 3 3 ∧
      (Grid.make 3 3).get_alive_cells = 0 ∧ Zoo.glider.get_alive_cells = 5 := by
  refine ⟨by decide, by decide, by decide⟩

/-- C5 (amended): Zoo::glider returns the 3 by 3 grid whose ALIVE cells are
exactly (0,2), (1,2), (2,2), (2,1), (1,0) in row-major order, and stepping
that world once with toroidal wrap yields the all-DEAD 3 by 3 grid rather
than another glider phase. -/
theorem C5_glider_toroidal_step :
    Zoo.glider = ⟨3, 3, [Cell.DEAD, Cell.ALIVE, Cell.DEAD, Cell.DEAD, Cell.DEAD,
        Cell.ALIVE, Cell.ALIVE, Cell.ALIVE, Cell.ALIVE]⟩ ∧
      (World.step (World.fromGrid Zoo.glider) true).current =
        ⟨3, 3, List.replicate 9 Cell.DEAD⟩ := by
  constructor <;> decide

/-- C8: merging a pattern into a grid leaves the callers pattern grid
completely unchanged (same width, same height, same cell everywhere): the
pattern parameter is declared by value in grid.h, so the call works on a
copy. -/
theorem C8_merge_preserves_pattern (g p : Grid) (x0 y0 : Int) (alive_only : Bool) :
    (mergeCall g p x0 y0 alive_only).2.num_columns = p.num_columns ∧
      (mergeCall g p x0 y0 alive_only).2.num_rows = p.num_rows ∧
      (mergeCall g p x0 y0 alive_only).2.theGrid = p.theGrid ∧
      ∀ x y : Nat, (mergeCall g p x0 y0 alive_only).2.get x y = p.get x y :=
  ⟨rfl, rfl, rfl, fun _ _ => rfl⟩

theorem natCharsAux_succ (fuel n : Nat) : natCharsAux (fuel + 1) n =
    if n = 0 then [] else natCharsAux fuel (n / 10) ++ [Char.ofNat (48 + n % 10)] := rfl

theorem parseDigitsAux_cons (c : Char) (cs : List Char) (acc : Nat) :
    parseDigitsAux (c :: cs) acc =
      if c.isDigit = true then parseDigitsAux cs (10 * acc + digVal c) else (acc, c :: cs) := rfl

theorem readIntCore_cons (c : Char) (cs : List Char) :
    readIntCore (c :: cs) =
      (if c = '-' then
        match cs with
        | [] => none
        | d :: ds =>
          if d.isDigit then
            some (-((parseDigitsAux ds (digVal d)).1 : Int), (parseDigitsAux ds (digVal d)).2)
          else none
      else if c = '+' then
        match cs with
        | [] => none
        | d :: ds =>
          if d.isDigit then
            some (((parseDigitsAux ds (digVal d)).1 : Int), (parseDigitsAux ds (digVal d)).2)
          else none
      else if c.isDigit then
        some (((parseDigitsAux cs (digVal c)).1 : Int), (parseDigitsAux cs (digVal c)).2)
      else none) := rfl

theorem digitChar_isDigit : ∀ d : Nat, d < 10 → (Char.ofNat (48 + d)).isDigit = true := by
  decide

theorem digVal_digitChar : ∀ d : Nat, d < 10 → digVal (Char.ofNat (48 + d)) = d := by
  decide

theorem natCharsAux_digits (fuel : Nat) : ∀ (n : Nat), ∀ c ∈ natCharsAux fuel n,
    c.isDigit = true := by
  induction fuel with
  | zero => intro n c hc; simp [natCharsAux] at hc
  | succ fuel ih =>
    intro n c hc
    unfold natCharsAux at hc
    by_cases hn : n = 0
    · simp [hn] at hc
    · rw [if_neg hn] at hc
      rcases List.mem_append.mp hc with h1 | h2
      · exact ih (n / 10) c h1
      · rw [List.mem_singleton.mp h2]
        exact digitChar_isDigit (n % 10) (Nat.mod_lt _ (by omega))

theorem natChars_digits (n : Nat) : ∀ c ∈ natChars n, c.isDigit = true := by
  unfold natChars
  by_cases hn : n = 0
  · simp only [hn, if_pos rfl]
    intro c hc
    rw [List.mem_singleton.mp hc]
    decide
  · rw [if_neg hn]
    exact natCharsAux_digits n n

theorem natChars_ne_nil (n : Nat) : natChars n ≠ [] := by
  unfold natChars
  by_cases hn : n = 0
  · simp [hn]
  · rw [if_neg hn]
    cases n with
    | zero => exact absurd rfl hn
    | succ m =>
      unfold natCharsAux
      rw [if_neg hn]
      simp

theorem parseDigitsAux_natCharsAux (fuel : Nat) : ∀ (n acc : Nat) (rest : List Char),
    n ≤ fuel → parseDigitsAux (natCharsAux fuel n ++ rest) acc =
      parseDigitsAux rest (acc * 10 ^ (natCharsAux fuel n).length + n) := by
  induction fuel with
  | zero =>
    intro n acc rest hn
    have : n = 0 := by omega
    subst this
    simp [natCharsAux]
  | succ fuel ih =>
    intro n acc rest hn
    by_cases hz : n = 0
    · subst hz
      simp [natCharsAux]
    · have hstep : natCharsAux (fuel + 1) n =
          natCharsAux fuel (n / 10) ++ [Char.ofNat (48 + n % 10)] := by
        rw [natCharsAux_succ, if_neg hz]
      rw [hstep, List.append_assoc, List.cons_append, List.nil_append,
        ih (n / 10) acc _ (by omega)]
      have hd : (Char.ofNat (48 + n % 10)).isDigit = true :=
        digitChar_isDigit _ (Nat.mod_lt _ (by omega))
      rw [parseDigitsAux_cons, if_pos hd, digVal_digitChar _ (Nat.mod_lt _ (by omega))]
      congr 1
      rw [List.length_append, List.length_singleton, pow_succ]
      ring_nf
      omega

theorem parseDigitsAux_natChars (n : Nat) (rest : List Char) :
    parseDigitsAux (natChars n ++ rest) 0 = parseDigitsAux rest n := by
  unfold natChars
  by_cases hz : n = 0
  · subst hz
    rw [if_pos rfl]
    show parseDigitsAux (Char.ofNat 48 :: rest) 0 = parseDigitsAux rest 0
    rw [parseDigitsAux_cons, if_pos (by decide)]
    rfl
  · rw [if_neg hz, parseDigitsAux_natCharsAux n n 0 rest (Nat.le_refl n)]
    rw [Nat.zero_mul, Nat.zero_add]

theorem isWS_eq_false_of_isDigit (c : Char) (h : c.isDigit = true) : isWS c = false := by
  unfold isWS
  simp only [decide_eq_false_iff_not]
  rintro (rfl | rfl | rfl | rfl) <;> exact absurd h (by decide)

theorem readIntFrom_natChars (n : Nat) (c : Char) (rest : List Char)
    (hc : c.isDigit = false) :
    readIntFrom (natChars n ++ c :: rest) = some ((n : Int), c :: rest) := by
  obtain ⟨d, ds, hds⟩ : ∃ d ds, natChars n = d :: ds := by
    cases hnc : natChars n with
    | nil => exact absurd hnc (natChars_ne_nil n)
    | cons d ds => exact ⟨d, ds, rfl⟩
  have hddig : d.isDigit = true := natChars_digits n d (hds ▸ List.mem_cons_self d ds)
  have hparse : parseDigitsAux (ds ++ c :: rest) (digVal d) = (n, c :: rest) := by
    have h0 : parseDigitsAux (natChars n ++ c :: rest) 0 = parseDigitsAux (c :: rest) n :=
      parseDigitsAux_natChars n (c :: rest)
    rw [hds, List.cons_append, parseDigitsAux_cons, if_pos hddig, Nat.mul_zero,
      Nat.zero_add, parseDigitsAux_cons, if_neg (by rw [hc]; exact Bool.false_ne_true)] at h0
    exact h0
  unfold readIntFrom
  rw [hds, List.cons_append, List.dropWhile_cons_of_neg
    (by rw [isWS_eq_false_of_isDigit d hddig]; exact Bool.false_ne_true)]
  rw [readIntCore_cons, if_neg (by rintro rfl; exact absurd hddig (by decide)),
    if_neg (by rintro rfl; exact absurd hddig (by decide)), if_pos hddig, hparse]

theorem readIntFrom_ws_cons (c : Char) (l : List Char) (hc : isWS c = true) :
    readIntFrom (c :: l) = readIntFrom l := by
  unfold readIntFrom
  rw [List.dropWhile_cons_of_pos hc]

theorem readCells_zero (i j : Nat) (st : PState) : readCells i 0 j st = Except.ok st := rfl

theorem readCells_succ (i rem j : Nat) (st : PState) :
    readCells i (rem + 1) j st =
      (if (pget st).x = ' ' ∨ (pget st).x = '#' then
        readCells i rem (j + 1)
          ⟨(pget st).s, (pget st).x, (pget st).fl, (pget st).g.set j i (pget st).x⟩
      else Except.error badCellMsg) := rfl

theorem readRows_zero (w i : Nat) (st : PState) : readRows w 0 i st = Except.ok st := rfl

theorem readRows_succ (w rem i : Nat) (st : PState) :
    readRows w (rem + 1) i st =
      (match readCells i w 0 st with
      | Except.error e => Except.error e
      | Except.ok st1 =>
        if (pget st1).x = '\n' then readRows w rem (i + 1) (pget st1)
        else Except.error newlineMsg) := rfl

theorem pget_cons (c : Char) (cs : List Char) (x : Char) (g : Grid) :
    pget ⟨c :: cs, x, false, g⟩ = ⟨cs, c, false, g⟩ := rfl

theorem setCellsFrom_nil (i j : Nat) (G : Grid) : setCellsFrom i j [] G = G := rfl

theorem setCellsFrom_cons (i j : Nat) (c : Char) (cs : List Char) (G : Grid) :
    setCellsFrom i j (c :: cs) G = setCellsFrom i (j + 1) cs (G.set j i c) := rfl

theorem setRowsFrom_nil (i : Nat) (G : Grid) : setRowsFrom i [] G = G := rfl

theorem setRowsFrom_cons (i : Nat) (r : List Char) (rs : List (List Char)) (G : Grid) :
    setRowsFrom i (r :: rs) G = setRowsFrom (i + 1) rs (setCellsFrom i 0 r G) := rfl

theorem setCellsFrom_num_columns (i : Nat) : ∀ (cells : List Char) (j : Nat) (G : Grid),
    (setCellsFrom i j cells G).num_columns = G.num_columns := by
  intro cells
  induction cells with
  | nil => intro j G; rfl
  | cons c cs ih =>
    intro j G
    rw [setCellsFrom_cons, ih, Grid.num_columns_set]

theorem setCellsFrom_num_rows (i : Nat) : ∀ (cells : List Char) (j : Nat) (G : Grid),
    (setCellsFrom i j cells G).num_rows = G.num_rows := by
  intro cells
  induction cells with
  | nil => intro j G; rfl
  | cons c cs ih =>
    intro j G
    rw [setCellsFrom_cons, ih, Grid.num_rows_set]

theorem setCellsFrom_length (i : Nat) : ∀ (cells : List Char) (j : Nat) (G : Grid),
    (setCellsFrom i j cells G).theGrid.length = G.theGrid.length := by
  intro cells
  induction cells with
  | nil => intro j G; rfl
  | cons c cs ih =>
    intro j G
    rw [setCellsFrom_cons, ih, Grid.length_set]

theorem setRowsFrom_num_columns : ∀ (rows : List (List Char)) (i : Nat) (G : Grid),
    (setRowsFrom i rows G).num_columns = G.num_columns := by
  intro rows
  induction rows with
  | nil => intro i G; rfl
  | cons r rs ih =>
    intro i G
    rw [setRowsFrom_cons, ih, setCellsFrom_num_columns]

theorem setRowsFrom_num_rows : ∀ (rows : List (List Char)) (i : Nat) (G : Grid),
    (setRowsFrom i rows G).num_rows = G.num_rows := by
  intro rows
  induction rows with
  | nil => intro i G; rfl
  | cons r rs ih =>
    intro i G
    rw [setRowsFrom_cons, ih, setCellsFrom_num_rows]

theorem setRowsFrom_length : ∀ (rows : List (List Char)) (i : Nat) (G : Grid),
    (setRowsFrom i rows G).theGrid.length = G.theGrid.length := by
  intro rows
  induction rows with
  | nil => intro i G; rfl
  | cons r rs ih =>
    intro i G
    rw [setRowsFrom_cons, ih, setCellsFrom_length]

theorem readCells_ok (i : Nat) : ∀ (cells : List Char) (j : Nat) (sx : Char)
    (rest : List Char) (G : Grid),
    (∀ c ∈ cells, c = ' ' ∨ c = '#') →
    ∃ x', readCells i cells.length j ⟨cells ++ rest, sx, false, G⟩ =
      Except.ok ⟨rest, x', false, setCellsFrom i j cells G⟩ := by
  intro cells
  induction cells with
  | nil =>
    intro j sx rest G hval
    exact ⟨sx, rfl⟩
  | cons c cs ih =>
    intro j sx rest G hval
    have hc : c = ' ' ∨ c = '#' := hval c (List.mem_cons_self c cs)
    rw [List.length_cons, readCells_succ, List.cons_append, pget_cons]
    simp only
    rw [if_pos hc, setCellsFrom_cons]
    exact ih (j + 1) c rest (G.set j i c) (fun d hd => hval d (List.mem_cons_of_mem c hd))

theorem readCells_bad (i : Nat) : ∀ (cells : List Char) (rem j : Nat) (sx bad : Char)
    (rest : List Char) (G : Grid),
    (∀ c ∈ cells, c = ' ' ∨ c = '#') → cells.length < rem →
    ¬(bad = ' ' ∨ bad = '#') →
    readCells i rem j ⟨cells ++ bad :: rest, sx, false, G⟩ = Except.error badCellMsg := by
  intro cells
  induction cells with
  | nil =>
    intro rem j sx bad rest G hval hlt hbad
    obtain ⟨r, rfl⟩ : ∃ r, rem = r + 1 := ⟨rem - 1, by omega⟩
    rw [List.nil_append, readCells_succ, pget_cons]
    simp only
    rw [if_neg hbad]
  | cons c cs ih =>
    intro rem j sx bad rest G hval hlt hbad
    obtain ⟨r, rfl⟩ : ∃ r, rem = r + 1 := ⟨rem - 1, by omega⟩
    have hc : c = ' ' ∨ c = '#' := hval c (List.mem_cons_self c cs)
    rw [List.cons_append, readCells_succ, pget_cons]
    simp only
    rw [if_pos hc]
    exact ih r (j + 1) c bad rest (G.set j i c)
      (fun d hd => hval d (List.mem_cons_of_mem c hd)) (by simpa using hlt) hbad

theorem readRows_valid_row (w rem i : Nat) (row : List Char) (sx : Char)
    (rest : List Char) (G : Grid)
    (hlen : row.length = w) (hval : ∀ c ∈ row, c = ' ' ∨ c = '#') :
    readRows w (rem + 1) i ⟨row ++ '\n' :: rest, sx, false, G⟩ =
      readRows w rem (i + 1) ⟨rest, '\n', false, setCellsFrom i 0 row G⟩ := by
  obtain ⟨x', hx'⟩ := readCells_ok i row 0 sx ('\n' :: rest) G hval
  rw [readRows_succ]
  rw [hlen] at hx'
  rw [hx']
  simp only [pget_cons]
  simp

theorem readRows_valid_rows (w : Nat) : ∀ (rows : List (List Char)) (rem i : Nat)
    (sx : Char) (rest : List Char) (G : Grid),
    (∀ r ∈ rows, r.length = w ∧ ∀ c ∈ r, c = ' ' ∨ c = '#') →
    rows.length ≤ rem →
    ∃ x', readRows w rem i
        ⟨List.flatten (rows.map (fun r => r ++ ['\n'])) ++ rest, sx, false, G⟩ =
      readRows w (rem - rows.length) (i + rows.length) ⟨rest, x', false, setRowsFrom i rows G⟩ := by
  intro rows
  induction rows with
  | nil =>
    intro rem i sx rest G hval hle
    refine ⟨sx, ?_⟩
    rw [setRowsFrom_nil]
    simp
  | cons r rs ih =>
    intro rem i sx rest G hval hle
    obtain ⟨rem', rfl⟩ : ∃ r', rem = r' + 1 := ⟨rem - 1, by simp at hle; omega⟩
    have hr := hval r (List.mem_cons_self r rs)
    have hstream : List.flatten ((r :: rs).map (fun r => r ++ ['\n'])) ++ rest =
        r ++ '\n' :: (List.flatten (rs.map (fun r => r ++ ['\n'])) ++ rest) := by
      simp [List.flatten_cons, List.append_assoc]
    rw [hstream, readRows_valid_row w rem' i r sx _ G hr.1 hr.2]
    obtain ⟨x', hx'⟩ := ih rem' (i + 1) '\n' rest (setCellsFrom i 0 r G)
      (fun q hq => hval q (List.mem_cons_of_mem r hq)) (by simp at hle; omega)
    refine ⟨x', ?_⟩
    rw [hx', setRowsFrom_cons]
    have h1 : rem' - rs.length = rem' + 1 - (r :: rs).length := by
      rw [List.length_cons]
      omega
    have h2 : i + 1 + rs.length = i + (r :: rs).length := by
      rw [List.length_cons]
      omega
    rw [h1, h2]

/-- C6: a text file whose header parses to valid (non-negative) dimensions
but which holds, at some cell position, a character that is neither the
DEAD character (space) nor the ALIVE character (hash) makes load_ascii
fail with the malformed-cell message — not a bounds error.  The cell
position is described by its parse context: some complete valid rows, then
a partial row of valid cells shorter than the width, then the offending
character. -/
theorem C6_malformed_ascii (file r1 r2 : List Char) (w h : Int) (c0 bad : Char)
    (rows : List (List Char)) (part rest : List Char)
    (h1 : readIntFrom file = some (w, r1)) (h2 : readIntFrom r1 = some (h, r2))
    (hw : 0 ≤ w) (hh : 0 ≤ h)
    (hr2 : r2 = c0 :: (List.flatten (rows.map (fun r => r ++ ['\n'])) ++ (part ++ bad :: rest)))
    (hrows : ∀ r ∈ rows, r.length = w.toNat ∧ ∀ c ∈ r, c = ' ' ∨ c = '#')
    (hk : rows.length < h.toNat)
    (hpart : part.length < w.toNat) (hpartval : ∀ c ∈ part, c = ' ' ∨ c = '#')
    (hbad : ¬(bad = ' ' ∨ bad = '#')) :
    Zoo.load_ascii file = Except.error badCellMsg := by
  simp only [Zoo.load_ascii, h1, h2]
  rw [if_neg (by omega)]
  rw [hr2, pget_cons]
  obtain ⟨x', hx'⟩ := readRows_valid_rows w.toNat rows h.toNat 0 c0 (part ++ bad :: rest)
    (Grid.make w.toNat h.toNat) hrows (Nat.le_of_lt hk)
  rw [Nat.zero_add] at hx'
  rw [hx']
  obtain ⟨r', hr'⟩ : ∃ r', h.toNat - rows.length = r' + 1 := ⟨h.toNat - rows.length - 1, by omega⟩
  rw [hr', readRows_succ,
    readCells_bad rows.length part (w.toNat) 0 x' bad rest _ hpartval hpart hbad]

/-- C6 witness: a 3 by 3 header whose second row holds an x at its second
cell position. -/
theorem C6_malformed_ascii_witness :
    Zoo.load_ascii "3 3\n # \n x #\n###\n".toList = Except.error badCellMsg :=
  C6_malformed_ascii "3 3\n # \n x #\n###\n".toList " 3\n # \n x #\n###\n".toList
    "\n # \n x #\n###\n".toList 3 3 '\n' 'x' [[' ', '#', ' ']] [' '] " #\n###\n".toList
    (by decide) (by decide) (by decide) (by decide) (by decide) (by decide) (by decide)
    (by decide) (by decide) (by decide)

theorem flat_eq_iff (w x j y i : Nat) (hx : x < w) (hj : j < w) :
    i * w + j = y * w + x ↔ i = y ∧ j = x := by
  constructor
  · intro hEq
    have hw : 0 < w := by omega
    have hdiv : ∀ a b : Nat, b < w → (a * w + b) / w = a := by
      intro a b hb
      rw [Nat.add_comm, Nat.add_mul_div_right _ _ hw, Nat.div_eq_of_lt hb, Nat.zero_add]
    have hi : i = y := by
      have hthis := hdiv i j hj
      rw [hEq, hdiv y x hx] at hthis
      exact hthis.symm
    subst hi
    exact ⟨rfl, Nat.add_left_cancel hEq⟩
  · rintro ⟨rfl, rfl⟩
    rfl

theorem setCellsFrom_get (i : Nat) : ∀ (cells : List Char) (j : Nat) (G : Grid) (x y : Nat),
    x < G.num_columns → j + cells.length ≤ G.num_columns →
    (setCellsFrom i j cells G).get x y =
      if i = y ∧ j ≤ x ∧ x < j + cells.length ∧ y * G.num_columns + x < G.theGrid.length
      then cells.getD (x - j) Cell.DEAD else G.get x y := by
  intro cells
  induction cells with
  | nil =>
    intro j G x y hx hjw
    rw [setCellsFrom_nil, if_neg (by simp only [List.length_nil]; omega)]
  | cons c cs ih =>
    intro j G x y hx hjw
    simp only [List.length_cons] at hjw
    have hj : j < G.num_columns := by omega
    rw [setCellsFrom_cons, ih (j + 1) (G.set j i c) x y
      (by rw [Grid.num_columns_set]; exact hx)
      (by rw [Grid.num_columns_set]; omega)]
    rw [Grid.num_columns_set, Grid.length_set]
    have hget : (G.set j i c).get x y =
        if i * G.num_columns + j = y * G.num_columns + x ∧
            y * G.num_columns + x < G.theGrid.length
        then c else G.get x y := by
      show (G.set j i c).cellAt (y * (G.set j i c).num_columns + x) = _
      rw [Grid.num_columns_set, Grid.cellAt_set]
      rfl
    rw [hget]
    simp only [List.length_cons]
    by_cases hyx : i = y ∧ j = x
    · obtain ⟨hy, hjx⟩ := hyx
      by_cases hlen : y * G.num_columns + x < G.theGrid.length
      · rw [if_neg (by omega), if_pos ⟨by rw [hy, hjx], hlen⟩,
          if_pos ⟨hy, by omega, by omega, hlen⟩]
        rw [show x - j = 0 by omega]
        rfl
      · rw [if_neg (by omega), if_neg (by rintro ⟨-, hc2⟩; omega),
          if_neg (by rintro ⟨-, -, -, hc4⟩; omega)]
    · have hfe : ¬(i * G.num_columns + j = y * G.num_columns + x ∧
          y * G.num_columns + x < G.theGrid.length) := by
        rintro ⟨hfe', -⟩
        exact hyx ((flat_eq_iff G.num_columns x j y i hx hj).mp hfe')
      rw [if_neg hfe]
      by_cases hcond : i = y ∧ j + 1 ≤ x ∧ x < j + 1 + cs.length ∧
          y * G.num_columns + x < G.theGrid.length
      · rw [if_pos hcond, if_pos ⟨hcond.1, by omega, by omega, hcond.2.2.2⟩]
        rw [show x - j = (x - (j + 1)) + 1 by omega, List.getD_cons_succ]
      · rw [if_neg hcond, if_neg (by
          rintro ⟨hy', hjx', hxlt', hlen'⟩
          by_cases hje : j = x
          · exact hyx ⟨hy', hje⟩
          · exact hcond ⟨hy', by omega, by omega, hlen'⟩)]

theorem setRowsFrom_get : ∀ (rows : List (List Char)) (i : Nat) (G : Grid) (x y : Nat),
    x < G.num_columns → (∀ r ∈ rows, r.length = G.num_columns) →
    (setRowsFrom i rows G).get x y =
      if i ≤ y ∧ y < i + rows.length ∧ y * G.num_columns + x < G.theGrid.length
      then (rows.getD (y - i) []).getD x Cell.DEAD else G.get x y := by
  intro rows
  induction rows with
  | nil =>
    intro i G x y hx hlens
    rw [setRowsFrom_nil, if_neg (by simp only [List.length_nil]; omega)]
  | cons r rs ih =>
    intro i G x y hx hlens
    have hr1 : r.length = G.num_columns := (hlens r (List.mem_cons_self r rs))
    rw [setRowsFrom_cons, ih (i + 1) (setCellsFrom i 0 r G) x y
      (by rw [setCellsFrom_num_columns]; exact hx)
      (by intro q hq; rw [setCellsFrom_num_columns]; exact hlens q (List.mem_cons_of_mem r hq))]
    rw [setCellsFrom_num_columns, setCellsFrom_length,
      setCellsFrom_get i r 0 G x y hx (by omega)]
    simp only [List.length_cons]
    by_cases hyi : y = i
    · subst hyi
      by_cases hlen : y * G.num_columns + x < G.theGrid.length
      · rw [if_neg (by omega), if_pos ⟨rfl, by omega, by omega, hlen⟩,
          if_pos ⟨Nat.le_refl y, by omega, hlen⟩]
        rw [Nat.sub_self]
        rfl
      · rw [if_neg (by omega), if_neg (by rintro ⟨-, -, -, hc⟩; omega),
          if_neg (by rintro ⟨-, -, hc⟩; omega)]
    · by_cases hcond : i + 1 ≤ y ∧ y < i + 1 + rs.length ∧
          y * G.num_columns + x < G.theGrid.length
      · rw [if_pos hcond, if_pos ⟨by omega, by omega, hcond.2.2⟩]
        rw [show y - i = (y - (i + 1)) + 1 by omega, List.getD_cons_succ]
      · rw [if_neg hcond,
          if_neg (by rintro ⟨hc1, -⟩; exact hyi hc1.symm),
          if_neg (by rintro ⟨h1', h2', h3'⟩; exact hcond ⟨by omega, by omega, h3'⟩)]

theorem flat_lt (w h x y : Nat) (hx : x < w) (hy : y < h) : y * w + x < w * h := by
  calc y * w + x < y * w + w := by omega
  _ = (y + 1) * w := by ring
  _ ≤ h * w := Nat.mul_le_mul_right w (by omega)
  _ = w * h := Nat.mul_comm _ _

theorem save_ascii_eq (g : Grid) :
    Zoo.save_ascii g = natChars g.num_columns ++ ' ' :: (natChars g.num_rows ++ '\n' ::
      List.flatten ((rowsOf g).map (fun r => r ++ ['\n']))) := by
  unfold Zoo.save_ascii rowsOf
  rw [List.map_map]
  rfl

theorem rowsOf_length (g : Grid) : (rowsOf g).length = g.num_rows := by
  unfold rowsOf
  simp

theorem rowsOf_valid (g : Grid) (hwf : g.wf) (hleg : g.legalCells) :
    ∀ r ∈ rowsOf g, r.length = g.num_columns ∧ ∀ c ∈ r, c = ' ' ∨ c = '#' := by
  have hlen : g.theGrid.length = g.num_columns * g.num_rows := hwf
  intro r hr
  unfold rowsOf at hr
  rw [List.mem_map] at hr
  obtain ⟨i, hi, rfl⟩ := hr
  rw [List.mem_range] at hi
  refine ⟨by simp, ?_⟩
  intro c hc
  rw [List.mem_map] at hc
  obtain ⟨j, hj, rfl⟩ := hc
  rw [List.mem_range] at hj
  have hmem : g.get j i ∈ g.theGrid := by
    show g.cellAt (i * g.num_columns + j) ∈ _
    apply Grid.cellAt_mem
    rw [hlen]
    exact flat_lt g.num_columns g.num_rows j i hj hi
  rcases hleg _ hmem with hA | hD
  · exact Or.inr hA
  · exact Or.inl hD

theorem rowsOf_getD (g : Grid) (x y : Nat) (hx : x < g.num_columns) (hy : y < g.num_rows)
    (d : Cell) : ((rowsOf g).getD y []).getD x d = g.get x y := by
  unfold rowsOf
  simp only [List.getD_eq_getElem?_getD, List.getElem?_map, List.getElem?_range hy,
    List.getElem?_range hx, Option.map_some', Option.getD_some]

/-- C9: for every well-formed Grid with only legal cell values, save_ascii
followed by load_ascii returns exactly the original grid (width, height
and every cell), including the degenerate grids with zero width or zero
height. -/
theorem C9_ascii_roundtrip (g : Grid) (hwf : g.wf) (hleg : g.legalCells) :
    Zoo.load_ascii (Zoo.save_ascii g) = Except.ok g := by
  have hlen : g.theGrid.length = g.num_columns * g.num_rows := hwf
  have hrowlens := rowsOf_valid g hwf hleg
  have h1 : readIntFrom (natChars g.num_columns ++ ' ' :: (natChars g.num_rows ++ '\n' ::
      List.flatten ((rowsOf g).map (fun r => r ++ ['\n'])))) =
      some ((g.num_columns : Int), ' ' :: (natChars g.num_rows ++ '\n' ::
        List.flatten ((rowsOf g).map (fun r => r ++ ['\n'])))) :=
    readIntFrom_natChars _ _ _ (by decide)
  have h2 : readIntFrom (' ' :: (natChars g.num_rows ++ '\n' ::
      List.flatten ((rowsOf g).map (fun r => r ++ ['\n'])))) =
      some ((g.num_rows : Int), '\n' ::
        List.flatten ((rowsOf g).map (fun r => r ++ ['\n']))) := by
    rw [readIntFrom_ws_cons _ _ (by decide)]
    exact readIntFrom_natChars _ _ _ (by decide)
  rw [save_ascii_eq]
  simp only [Zoo.load_ascii, h1, h2]
  rw [if_neg (by omega)]
  simp only [Int.toNat_natCast]
  rw [pget_cons]
  obtain ⟨x', hx'⟩ := readRows_valid_rows g.num_columns (rowsOf g) g.num_rows 0 '\n' []
    (Grid.make g.num_columns g.num_rows) hrowlens (by rw [rowsOf_length])
  rw [List.append_nil, rowsOf_length, Nat.sub_self, Nat.zero_add] at hx'
  rw [hx', readRows_zero]
  show Except.ok (setRowsFrom 0 (rowsOf g) (Grid.make g.num_columns g.num_rows)) = Except.ok g
  congr 1
  refine Grid.eq_of_cellAt _ _ ?_ ?_ ?_ ?_
  · rw [setRowsFrom_num_columns]
    rfl
  · rw [setRowsFrom_num_rows]
    rfl
  · rw [setRowsFrom_length, Grid.length_make, hlen]
  · intro p
    by_cases hp : p < g.num_columns * g.num_rows
    · have hw0 : 0 < g.num_columns := by
        rcases Nat.eq_zero_or_pos g.num_columns with h0 | h0
        · rw [h0, Nat.zero_mul] at hp
          omega
        · exact h0
      have hxlt : p % g.num_columns < g.num_columns := Nat.mod_lt _ hw0
      have hylt : p / g.num_columns < g.num_rows := by
        rw [Nat.div_lt_iff_lt_mul hw0]
        rw [Nat.mul_comm] at hp
        exact hp
      have hpe : p / g.num_columns * g.num_columns + p % g.num_columns = p := by
        rw [Nat.mul_comm]
        exact Nat.div_add_mod p g.num_columns
      have hres : (setRowsFrom 0 (rowsOf g) (Grid.make g.num_columns g.num_rows)).cellAt p =
          (setRowsFrom 0 (rowsOf g) (Grid.make g.num_columns g.num_rows)).get
            (p % g.num_columns) (p / g.num_columns) := by
        show _ = (setRowsFrom 0 (rowsOf g) (Grid.make g.num_columns g.num_rows)).cellAt
          (p / g.num_columns *
            (setRowsFrom 0 (rowsOf g) (Grid.make g.num_columns g.num_rows)).num_columns +
            p % g.num_columns)
        rw [setRowsFrom_num_columns]
        show _ = (setRowsFrom 0 (rowsOf g) (Grid.make g.num_columns g.num_rows)).cellAt
          (p / g.num_columns * g.num_columns + p % g.num_columns)
        rw [hpe]
      have hg : g.cellAt p = g.get (p % g.num_columns) (p / g.num_columns) := by
        show _ = g.cellAt (p / g.num_columns * g.num_columns + p % g.num_columns)
        rw [hpe]
      rw [hres, hg]
      rw [setRowsFrom_get (rowsOf g) 0 (Grid.make g.num_columns g.num_rows)
        (p % g.num_columns) (p / g.num_columns) hxlt
        (fun r hr => (hrowlens r hr).1)]
      rw [if_pos ⟨Nat.zero_le _, by rw [rowsOf_length]; omega, by
        rw [Grid.length_make]
        show p / g.num_columns * g.num_columns + p % g.num_columns < _
        rw [hpe]
        exact hp⟩]
      rw [Nat.sub_zero, rowsOf_getD g _ _ hxlt hylt Cell.DEAD]
    · rw [Grid.cellAt_of_ge _ _ (by rw [setRowsFrom_length, Grid.length_make]; omega),
        Grid.cellAt_of_ge _ _ (by omega)]

/-- C9 witness: the ascii round trip at the concrete glider grid. -/
theorem C9_ascii_roundtrip_witness :
    Zoo.glider.wf ∧ Zoo.glider.legalCells ∧
      Zoo.load_ascii (Zoo.save_ascii Zoo.glider) = Except.ok Zoo.glider :=
  ⟨by decide, by decide, C9_ascii_roundtrip Zoo.glider (by decide) (by decide)⟩

theorem pget_g (st : PState) : (pget st).g = st.g := by
  obtain ⟨s, x, fl, g⟩ := st
  cases fl <;> cases s <;> rfl

theorem Grid.legalCells_set (G : Grid) (x y : Nat) (c : Cell) (hG : G.legalCells)
    (hc : c = Cell.ALIVE ∨ c = Cell.DEAD) : (G.set x y c).legalCells := by
  intro d hd
  rcases List.mem_or_eq_of_mem_set hd with h1 | h2
  · exact hG d h1
  · rw [h2]
    exact hc

theorem Grid.legalCells_make (w h : Nat) : (Grid.make w h).legalCells := by
  intro c hc
  unfold Grid.make at hc
  simp only at hc
  rw [List.mem_replicate] at hc
  exact Or.inr hc.2

theorem readCells_legal (i : Nat) : ∀ (rem j : Nat) (st st' : PState),
    st.g.legalCells → readCells i rem j st = Except.ok st' → st'.g.legalCells := by
  intro rem
  induction rem with
  | zero =>
    intro j st st' hleg hok
    rw [readCells_zero] at hok
    cases hok
    exact hleg
  | succ rem ih =>
    intro j st st' hleg hok
    rw [readCells_succ] at hok
    by_cases hx : (pget st).x = ' ' ∨ (pget st).x = '#'
    · rw [if_pos hx] at hok
      refine ih (j + 1) _ st' ?_ hok
      show ((pget st).g.set j i (pget st).x).legalCells
      refine Grid.legalCells_set _ _ _ _ ?_ ?_
      · rw [pget_g]
        exact hleg
      · rcases hx with h | h
        · exact Or.inr h
        · exact Or.inl h
    · rw [if_neg hx] at hok
      cases hok

theorem readRows_legal (w : Nat) : ∀ (rem i : Nat) (st st' : PState),
    st.g.legalCells → readRows w rem i st = Except.ok st' → st'.g.legalCells := by
  intro rem
  induction rem with
  | zero =>
    intro i st st' hleg hok
    rw [readRows_zero] at hok
    cases hok
    exact hleg
  | succ rem ih =>
    intro i st st' hleg hok
    rw [readRows_succ] at hok
    cases hcells : readCells i w 0 st with
    | error e =>
      rw [hcells] at hok
      cases hok
    | ok st1 =>
      rw [hcells] at hok
      simp only at hok
      by_cases hnl : (pget st1).x = '\n'
      · rw [if_pos hnl] at hok
        refine ih (i + 1) _ st' ?_ hok
        rw [pget_g]
        exact readCells_legal i w 0 st st1 hleg hcells
      · rw [if_neg hnl] at hok
        cases hok

theorem getD_append_len (l1 l2 : List Char) (n : Nat) (d : Char) :
    (l1 ++ l2).getD (l1.length + n) d = l2.getD n d := by
  rw [List.getD_eq_getElem?_getD, List.getElem?_append_right (by omega),
    Nat.add_sub_cancel_left, List.getD_eq_getElem?_getD]

theorem getD_cons_one_plus (c : Char) (l : List Char) (n : Nat) (d : Char) :
    (c :: l).getD (1 + n) d = l.getD n d := by
  rw [Nat.add_comm, List.getD_cons_succ]

theorem getD_append_left_of_lt (l1 l2 : List Char) (n : Nat) (d : Char) (h : n < l1.length) :
    (l1 ++ l2).getD n d = l1.getD n d := by
  rw [List.getD_eq_getElem?_getD, List.getElem?_append_left h, List.getD_eq_getElem?_getD]

theorem flatten_getD_uniform : ∀ (rows : List (List Char)) (L x y : Nat) (d : Char),
    (∀ r ∈ rows, r.length = L) → y < rows.length → x < L →
    (List.flatten rows).getD (y * L + x) d = (rows.getD y []).getD x d := by
  intro rows
  induction rows with
  | nil =>
    intro L x y d hl hy hx
    simp at hy
  | cons r rs ih =>
    intro L x y d hl hy hx
    rw [List.flatten_cons]
    cases y with
    | zero =>
      rw [Nat.zero_mul, Nat.zero_add]
      rw [getD_append_left_of_lt _ _ _ _ (by rw [hl r (List.mem_cons_self r rs)]; exact hx)]
      rfl
    | succ y' =>
      have hidx : (y' + 1) * L + x = r.length + (y' * L + x) := by
        rw [hl r (List.mem_cons_self r rs)]
        ring
      rw [hidx, getD_append_len, List.getD_cons_succ]
      exact ih L x y' d (fun q hq => hl q (List.mem_cons_of_mem r hq))
        (by simp at hy; omega) hx

/-- C10: the Cell enum values are exactly the text format characters (DEAD
is the space character, ALIVE the hash); every Grid returned by load_ascii
holds only the two legal Cell values, because only those two characters
are accepted and stored (cast to Cell, an identity on the byte); and
save_ascii writes each cell byte unchanged at its position in the file
(after the header and the earlier rows, each row being width cells and a
newline). -/
theorem C10_cell_repr :
    (Cell.DEAD = ' ') ∧ (Cell.ALIVE = '#') ∧
    (∀ (file : List Char) (g : Grid), Zoo.load_ascii file = Except.ok g → g.legalCells) ∧
    (∀ (g : Grid) (x y : Nat), x < g.num_columns → y < g.num_rows →
      (Zoo.save_ascii g).getD
        ((natChars g.num_columns).length + (1 + ((natChars g.num_rows).length +
          (1 + (y * (g.num_columns + 1) + x))))) '?' = g.get x y) := by
  refine ⟨rfl, rfl, ?_, ?_⟩
  · intro file g hok
    cases hr1 : readIntFrom file with
    | none =>
      simp only [Zoo.load_ascii, hr1] at hok
      cases hok
    | some p1 =>
      obtain ⟨w, r1⟩ := p1
      cases hr2 : readIntFrom r1 with
      | none =>
        simp only [Zoo.load_ascii, hr1, hr2] at hok
        cases hok
      | some p2 =>
        obtain ⟨h, r2⟩ := p2
        simp only [Zoo.load_ascii, hr1, hr2] at hok
        by_cases hneg : w < 0 ∨ h < 0
        · rw [if_pos hneg] at hok
          cases hok
        · rw [if_neg hneg] at hok
          cases hrr : readRows w.toNat h.toNat 0
              (pget ⟨r2, ' ', false, Grid.make w.toNat h.toNat⟩) with
          | error e =>
            rw [hrr] at hok
            cases hok
          | ok st1 =>
            rw [hrr] at hok
            simp only at hok
            by_cases hfl : st1.fl = true
            · rw [if_pos hfl] at hok
              cases hok
            · rw [if_neg hfl] at hok
              cases hok
              refine readRows_legal w.toNat h.toNat 0 _ st1 ?_ hrr
              rw [pget_g]
              exact Grid.legalCells_make w.toNat h.toNat
  · intro g x y hx hy
    rw [save_ascii_eq, getD_append_len, getD_cons_one_plus, getD_append_len,
      getD_cons_one_plus]
    have hrowlen : ∀ r ∈ (rowsOf g).map (fun r => r ++ ['\n']),
        r.length = g.num_columns + 1 := by
      intro r hr
      rw [List.mem_map] at hr
      obtain ⟨q, hq, rfl⟩ := hr
      unfold rowsOf at hq
      rw [List.mem_map] at hq
      obtain ⟨i, hi, rfl⟩ := hq
      simp
    rw [flatten_getD_uniform _ (g.num_columns + 1) x y '?' hrowlen
      (by rw [List.length_map, rowsOf_length]; exact hy) (by omega)]
    have hmapgetD : ((rowsOf g).map (fun r => r ++ ['\n'])).getD y [] =
        (rowsOf g).getD y [] ++ ['\n'] := by
      rw [List.getD_eq_getElem?_getD, List.getElem?_map]
      cases hyy : (rowsOf g)[y]? with
      | none =>
        rw [List.getElem?_eq_none_iff] at hyy
        rw [rowsOf_length] at hyy
        omega
      | some q =>
        simp only [Option.map_some', Option.getD_some]
        rw [List.getD_eq_getElem?_getD, hyy]
        rfl
    rw [hmapgetD, getD_append_left_of_lt _ _ _ _ (by
      have : ((rowsOf g).getD y []).length = g.num_columns := by
        rw [List.getD_eq_getElem?_getD]
        unfold rowsOf
        rw [List.getElem?_map, List.getElem?_range hy]
        simp
      omega), rowsOf_getD g x y hx hy ('?' : Cell)]

/-- C10 witness: the invariant and the rendering equation at the one-cell
grid read from a one-cell file. -/
theorem C10_cell_repr_witness :
    Zoo.load_ascii "1 1\n#\n".toList = Except.ok (⟨1, 1, ['#']⟩ : Grid) ∧
      (('#' : Cell) = Cell.ALIVE ∨ ('#' : Cell) = Cell.DEAD) ∧
      (0 : Nat) < Zoo.glider.num_columns ∧ (0 : Nat) < Zoo.glider.num_rows ∧
      (Zoo.save_ascii Zoo.glider).getD
        ((natChars Zoo.glider.num_columns).length + (1 + ((natChars Zoo.glider.num_rows).length +
          (1 + (0 * (Zoo.glider.num_columns + 1) + 0))))) '?' = Zoo.glider.get 0 0 :=
  ⟨by decide,
    C10_cell_repr.2.2.1 "1 1\n#\n".toList (⟨1, 1, ['#']⟩ : Grid) (by decide) '#' (by decide),
    by decide, by decide,
    C10_cell_repr.2.2.2 Zoo.glider 0 0 (by decide) (by decide)⟩

